import Mathlib

/-!
Verification development for the race-result extraction and incremental-merge
pipeline (`src/scraper/parser.py`).

The Python module is shallowly embedded below.  Pure functions become Lean
functions on `ℚ`/`Nat`/`String`; the HTML soup is embedded as a structured
value (`Soup`) holding exactly the regions the parser inspects; the filesystem
tree walked by the batch runner is an explicit `Tree` value whose directory
listings come in an arbitrary order (the code sorts them, as `sorted(...)`
does); persisted CSV/Parquet tables are explicit in-memory tables threaded
through the merge functions.  Monetary amounts and parsed floats are modelled
as exact rationals.

Fields of the source records that no claim refers to (header regex fields such
as surface/weather/date, jockey/trainer/owner links, body weight and passing
order) are not modelled; every modelled field follows the source line by line.
-/

namespace Keiba

/-- Digit-string to number, mirroring Python `int()` on an `isdigit` string. -/
def digitsToNat (l : List Char) : Nat :=
  l.foldl (fun a c => a * 10 + (c.toNat - 48)) 0

/-- Python `str.isdigit` (ASCII digits): nonempty and all digits. -/
def strIsDigit (s : String) : Bool :=
  !s.data.isEmpty && s.data.all Char.isDigit

/-- Test for the anchored regex `^\d+\.\d+$` used for odds and last-3F cells. -/
def isDecimalChars (l : List Char) : Bool :=
  let ip := l.takeWhile Char.isDigit
  match l.dropWhile Char.isDigit with
  | '.' :: fr => !ip.isEmpty && !fr.isEmpty && fr.all Char.isDigit
  | _ => false

/-- Python `str.strip()`: drop whitespace from both ends. -/
def pyStrip (s : String) : String :=
  ⟨((s.data.dropWhile Char.isWhitespace).reverse.dropWhile Char.isWhitespace).reverse⟩

/-- Python `float()` on the plain decimal literals this data contains
(optional sign, integer part, optional fractional part); other strings fail.
Exponent/inf/nan forms never occur in the parsed cells and are out of scope.
The value `ip.fr` is the exact rational `(ip * 10^k + fr) / 10^k`. -/
def pyFloatQ (s : String) : Option ℚ :=
  let core := fun (m : List Char) (sgn : Int) =>
    let ip := m.takeWhile Char.isDigit
    match m.dropWhile Char.isDigit with
    | [] => if ip.isEmpty then none else some (mkRat (sgn * (digitsToNat ip : Int)) 1)
    | '.' :: fr =>
      if (ip.isEmpty && fr.isEmpty) || !fr.all Char.isDigit then none
      else some (mkRat (sgn * ((digitsToNat ip * 10 ^ fr.length + digitsToNat fr : Nat) : Int))
        (10 ^ fr.length))
    | _ => none
  match (pyStrip s).data with
  | '-' :: t => core t (-1)
  | '+' :: t => core t 1
  | l => core l 1

/-- Python `str.replace` of commas by nothing, for prize cells. -/
def stripCommas (s : String) : String :=
  ⟨s.data.filter (fun c => c ≠ ',')⟩

/-- Substring slice `s[a:b]` of Python. -/
def sliceStr (s : String) (a b : Nat) : String :=
  ⟨(s.data.drop a).take (b - a)⟩

/-- Race level from the winner's prize money (`classify_race_level`). -/
def classify_race_level (prize_money : ℚ) : String × Nat :=
  if 10000 ≤ prize_money then ("S", 6)
  else if 5000 ≤ prize_money then ("A", 5)
  else if 3000 ≤ prize_money then ("B", 4)
  else if 1500 ≤ prize_money then ("C", 3)
  else if 750 ≤ prize_money then ("D", 2)
  else ("E", 1)

/-- Consume one expected literal character, as the regex engine does. -/
def expectChar (c : Char) (l : List Char) : Option (List Char) :=
  match l with
  | d :: rest => if d = c then some rest else none
  | [] => none

/-- The prefix matcher for the regex `(\d+):(\d+)\.(\d+)` used by
`parse_time_to_seconds` (Python `re.match` anchors at the start only):
a maximal nonempty digit run, a literal colon, a maximal nonempty digit run,
a literal dot, a maximal nonempty digit run; trailing input is ignored. -/
def matchTime3 (l : List Char) : Option (Nat × Nat × Nat) :=
  let ms := l.takeWhile Char.isDigit
  if ms.isEmpty then none else
  (expectChar ':' (l.dropWhile Char.isDigit)).bind fun r1 =>
    let ss := r1.takeWhile Char.isDigit
    if ss.isEmpty then none else
    (expectChar '.' (r1.dropWhile Char.isDigit)).bind fun r2 =>
      let ds := r2.takeWhile Char.isDigit
      if ds.isEmpty then none
      else some (digitsToNat ms, digitsToNat ss, digitsToNat ds)

/-- Time string to seconds (`parse_time_to_seconds`).  The value
`minutes*60 + seconds + decimals/10` is built as the exact rational
`(600*minutes + 10*seconds + decimals) / 10`. -/
def parse_time_to_seconds (s : String) : Option ℚ :=
  if s = "" then none
  else (matchTime3 s.data).map fun md =>
    mkRat (600 * md.1 + 10 * md.2.1 + md.2.2 : Nat) 10

/-- One `td` cell: its text, its `class` attribute list, and the text of its
first `span` descendant when one exists. -/
structure Cell where
  text : String
  classes : List String
  span : Option String
deriving DecidableEq

def emptyCell : Cell := ⟨"", [], none⟩

/-- The structural regions of one parsed document that the modelled fields
read: the `race_table_01` rows (including the header row, which the code
skips). -/
structure Soup where
  result_table : Option (List (List Cell))
deriving DecidableEq

/-- Modelled fields of one participant row (`horse` dict). -/
structure Horse where
  race_id : String
  finish_position : Option Nat
  is_finished : Bool
  dnf_reason : Option String
  gate_number : Option Nat
  horse_number : Option Nat
  time_str : String
  time_seconds : Option ℚ
  margin : String
  prize_money : ℚ
  odds : Option ℚ := none
  popularity : Option Nat := none
  race_level : Option String := none
  level_score : Option Nat := none
  venue_code : Option String := none
  venue_name : Option String := none
deriving DecidableEq

/-- Modelled fields of one event row (`race_info` dict). -/
structure RaceInfo where
  race_id : String
  venue_code : Option String
  venue_name : String
  first_prize : Option ℚ := none
  race_level : Option String := none
  level_score : Option Nat := none
  horse_count : Option Nat := none
deriving DecidableEq

/-- The fixed venue lookup table (`venue_map`); unknown codes give `""`. -/
def venue_map (code : String) : String :=
  match code with
  | "01" => "札幌" | "02" => "函館" | "03" => "福島" | "04" => "新潟" | "05" => "東京"
  | "06" => "中山" | "07" => "中京" | "08" => "京都" | "09" => "阪神" | "10" => "小倉"
  | _ => ""

def txtRClass : String := "txt_r"

def mlChars : List Char := ['m', 'l']

/-- Contiguous-substring test, Python `pat in s`. -/
def containsSub (pat : List Char) : List Char → Bool
  | [] => pat.isEmpty
  | c :: rest => pat.isPrefixOf (c :: rest) || containsSub pat rest

/-- The odds-cell heuristic: class list contains `txt_r` and the stripped
text matches `^\d+\.\d+$`. -/
def odds_cell (c : Cell) : Bool :=
  c.classes.contains txtRClass && isDecimalChars (pyStrip c.text).data

/-- The odds value taken from a matching cell, Python `float(text)`. -/
def odds_value (c : Cell) : ℚ :=
  (pyFloatQ (pyStrip c.text)).getD 0

/-- The popularity-cell heuristic: some class contains `ml`, the cell has a
span whose stripped text is a digit string, and its value lies in `1..18`. -/
def pop_cell (c : Cell) : Bool :=
  (c.classes.any (fun cl => containsSub mlChars cl.data)) &&
    (match c.span with
     | some sp =>
       strIsDigit (pyStrip sp) && decide (1 ≤ digitsToNat (pyStrip sp).data) &&
         decide (digitsToNat (pyStrip sp).data ≤ 18)
     | none => false)

/-- The popularity value taken from a matching cell's span text. -/
def pop_value (c : Cell) : Nat :=
  match c.span with
  | some sp => digitsToNat (pyStrip sp).data
  | none => 0

/-- The odds branch of the scan: a matching cell sets `odds` only when it is
still unset (`if 'odds' not in horse`). -/
def oddsStep (h : Horse) (c : Cell) : Horse :=
  if odds_cell c then
    (if h.odds = none then {h with odds := some (odds_value c)} else h)
  else h

/-- The popularity branch of the scan: a matching cell sets `popularity`
unconditionally (the source has no already-set guard on this field). -/
def popStep (h : Horse) (c : Cell) : Horse :=
  if pop_cell c then {h with popularity := some (pop_value c)} else h

/-- One iteration of the `for cell in cells` odds/popularity scan. -/
def oddsPopStep (h : Horse) (c : Cell) : Horse :=
  popStep (oddsStep h c) c

/-- Parse one results-table row (the body of the `for row in rows` loop,
restricted to the modelled fields). -/
def parseHorseRow (race_id : String) (cells : List Cell) : Horse :=
  let finish := pyStrip (cells.getD 0 emptyCell).text
  let gate := pyStrip (cells.getD 1 emptyCell).text
  let num := pyStrip (cells.getD 2 emptyCell).text
  let time_str := pyStrip (cells.getD 7 emptyCell).text
  let h0 : Horse := {
    race_id := race_id
    finish_position := if strIsDigit finish then some (digitsToNat finish.data) else none
    is_finished := strIsDigit finish
    dnf_reason := if strIsDigit finish then none else some finish
    gate_number := if strIsDigit gate then some (digitsToNat gate.data) else none
    horse_number := if strIsDigit num then some (digitsToNat num.data) else none
    time_str := time_str
    time_seconds := parse_time_to_seconds time_str
    margin := pyStrip (cells.getD 8 emptyCell).text
    prize_money := (pyFloatQ (stripCommas (pyStrip (cells.getLastD emptyCell).text))).getD 0 }
  cells.foldl oddsPopStep h0

/-- The `first_place` filter of the source. -/
def winners (horses : List Horse) : List Horse :=
  horses.filter (fun h => h.finish_position == some 1)

/-- The participant rows of one document: the `race_table_01` body rows
(header row skipped by `[1:]`), each row with fewer than ten cells skipped
by `continue`, the rest parsed in order. -/
def raceHorses (race_id : String) (soup : Soup) : List Horse :=
  match soup.result_table with
  | none => []
  | some trs => ((trs.drop 1).filter (fun tds => 10 ≤ tds.length)).map (parseHorseRow race_id)

/-- The event fields read from the id substring slices. -/
def raceInfoBase (race_id : String) : RaceInfo :=
  let venue_code := if 6 ≤ race_id.data.length then some (sliceStr race_id 4 6) else none
  { race_id := race_id
    venue_code := venue_code
    venue_name := match venue_code with | some c => venue_map c | none => "" }

/-- The winner-derived event fields (`if horses:` block of the source): when
the parsed row list is nonempty, the first row with `finish_position == 1`
supplies `first_prize`/`race_level`/`level_score`, and `horse_count` is set. -/
def deriveRaceFields (ri0 : RaceInfo) (horses : List Horse) : RaceInfo :=
  if horses.isEmpty then ri0
  else
    let ri1 :=
      match (winners horses).head? with
      | some w =>
        { ri0 with
          first_prize := some w.prize_money
          race_level := some (classify_race_level w.prize_money).1
          level_score := some (classify_race_level w.prize_money).2 }
      | none => ri0
    {ri1 with horse_count := some horses.length}

/-- Parse one document (`parse_race_html_full`). -/
def parse_race_html_full (race_id : String) (soup : Soup) : RaceInfo × List Horse :=
  let horses := raceHorses race_id soup
  (deriveRaceFields (raceInfoBase race_id) horses, horses)

/-! ### Helper lemmas -/

theorem head?_filter {α : Type} (p : α → Bool) :
    ∀ l : List α, (l.filter p).head? = l.find? p
  | [] => rfl
  | a :: l => by
    by_cases h : p a
    · simp [List.filter_cons, List.find?_cons_of_pos, h]
    · simp [List.filter_cons, h, List.find?_cons_of_neg, head?_filter p l]

theorem takeWhile_all_head {α : Type} (p : α → Bool) :
    ∀ (xs rest : List α), xs.all p = true →
      (∀ c, rest.head? = some c → p c = false) →
      (xs ++ rest).takeWhile p = xs ∧ (xs ++ rest).dropWhile p = rest
  | [], rest, _, hrest => by
    cases rest with
    | nil => exact ⟨rfl, rfl⟩
    | cons c r =>
      have hc := hrest c rfl
      simp [List.takeWhile_cons, List.dropWhile_cons, hc]
  | x :: xs, rest, hall, hrest => by
    have hx : p x = true := by
      have := List.all_eq_true.mp hall x (by simp)
      simpa using this
    have hxs : xs.all p = true := by
      refine List.all_eq_true.mpr fun a ha => ?_
      exact List.all_eq_true.mp hall a (by simp [ha])
    have ih := takeWhile_all_head p xs rest hxs hrest
    simp [List.takeWhile_cons, List.dropWhile_cons, hx, ih.1, ih.2]

theorem expectChar_eq_some {c : Char} {l r : List Char} :
    expectChar c l = some r ↔ l = c :: r := by
  unfold expectChar
  cases l with
  | nil => simp
  | cons d rest =>
    by_cases hd : d = c
    · subst hd; simp
    · simp [hd]

theorem mkRat_time_value (m s d : Nat) :
    (mkRat ((600 * m + 10 * s + d : Nat) : Int) 10 : ℚ)
      = (m : ℚ) * 60 + (s : ℚ) + (d : ℚ) / 10 := by
  rw [Rat.mkRat_eq_div]
  push_cast
  ring

/-! ### Claim theorems for the document extractor -/

/-- C3: `classify_race_level` is total on non-negative amounts and realises
the six-tier boundary table with first-satisfied `>=` semantics, and the
eleven probe amounts map exactly as the boundary table states. -/
theorem claim_C3_value_classifier :
    (∀ a : ℚ,
      (10000 ≤ a → classify_race_level a = ("S", 6)) ∧
      (5000 ≤ a ∧ a < 10000 → classify_race_level a = ("A", 5)) ∧
      (3000 ≤ a ∧ a < 5000 → classify_race_level a = ("B", 4)) ∧
      (1500 ≤ a ∧ a < 3000 → classify_race_level a = ("C", 3)) ∧
      (750 ≤ a ∧ a < 1500 → classify_race_level a = ("D", 2)) ∧
      (0 ≤ a ∧ a < 750 → classify_race_level a = ("E", 1))) ∧
    (classify_race_level 10000 = ("S", 6) ∧ classify_race_level 9999 = ("A", 5) ∧
     classify_race_level 5000 = ("A", 5) ∧ classify_race_level 4999 = ("B", 4) ∧
     classify_race_level 3000 = ("B", 4) ∧ classify_race_level 2999 = ("C", 3) ∧
     classify_race_level 1500 = ("C", 3) ∧ classify_race_level 1499 = ("D", 2) ∧
     classify_race_level 750 = ("D", 2) ∧ classify_race_level 749 = ("E", 1) ∧
     classify_race_level 0 = ("E", 1)) := by
  constructor
  · intro a
    unfold classify_race_level
    refine ⟨fun h => ?_, fun h => ?_, fun h => ?_, fun h => ?_, fun h => ?_, fun h => ?_⟩
    · rw [if_pos h]
    · rw [if_neg (by linarith [h.2]), if_pos h.1]
    · rw [if_neg (by linarith [h.2]), if_neg (by linarith [h.2]), if_pos h.1]
    · rw [if_neg (by linarith [h.2]), if_neg (by linarith [h.2]), if_neg (by linarith [h.2]),
        if_pos h.1]
    · rw [if_neg (by linarith [h.2]), if_neg (by linarith [h.2]), if_neg (by linarith [h.2]),
        if_neg (by linarith [h.2]), if_pos h.1]
    · rw [if_neg (by linarith [h.2]), if_neg (by linarith [h.2]), if_neg (by linarith [h.2]),
        if_neg (by linarith [h.2]), if_neg (by linarith [h.2])]
  · decide

/-- C3 witness: the theorem applied at the concrete amount 12000. -/
theorem claim_C3_witness : classify_race_level 12000 = ("S", 6) :=
  (claim_C3_value_classifier.1 12000).1 (by decide)

/-- A synthetic results row with the given finish and prize cell texts and
ten cells in total. -/
def mkRow (finish prize : String) : List Cell :=
  [⟨finish, [], none⟩, ⟨"1", [], none⟩, ⟨"1", [], none⟩, ⟨"X", [], none⟩, ⟨"", [], none⟩,
   ⟨"55", [], none⟩, ⟨"", [], none⟩, ⟨"1:10.0", [], none⟩, ⟨"", [], none⟩, ⟨prize, [], none⟩]

/-- A synthetic one-document, three-participant input: participant 2 finished
first with prize 12000 (the spec's end-to-end scenario).  The first row is
the header row the parser drops. -/
def endToEndSoup : Soup :=
  ⟨some [[], mkRow "2" "500.0", mkRow "1" "12,000.0", mkRow "3" "300.0"]⟩

/-- C2: the winner-derived event fields equal the field values of the first
parsed participant whose `finish_position` is 1 (all three absent when no
participant finished first), and the synthetic three-participant document
with a 12000 first prize yields the top tier with score 6. -/
theorem claim_C2_winner_fields (race_id : String) (soup : Soup) :
    ((parse_race_html_full race_id soup).1.first_prize
        = ((parse_race_html_full race_id soup).2.find? (fun h => h.finish_position == some 1)).map
            (fun h => h.prize_money) ∧
      (parse_race_html_full race_id soup).1.race_level
        = ((parse_race_html_full race_id soup).2.find? (fun h => h.finish_position == some 1)).map
            (fun h => (classify_race_level h.prize_money).1) ∧
      (parse_race_html_full race_id soup).1.level_score
        = ((parse_race_html_full race_id soup).2.find? (fun h => h.finish_position == some 1)).map
            (fun h => (classify_race_level h.prize_money).2)) ∧
    ((parse_race_html_full "202005010101" endToEndSoup).1.first_prize = some 12000 ∧
     (parse_race_html_full "202005010101" endToEndSoup).1.race_level = some "S" ∧
     (parse_race_html_full "202005010101" endToEndSoup).1.level_score = some 6) := by
  constructor
  · unfold parse_race_html_full deriveRaceFields winners
    have hf := head?_filter (fun h : Horse => h.finish_position == some 1)
      (raceHorses race_id soup)
    by_cases he : (raceHorses race_id soup).isEmpty
    · have hnil : raceHorses race_id soup = [] := by simpa using he
      simp [hnil, raceInfoBase]
    · rw [← hf]
      cases hw : ((raceHorses race_id soup).filter
          (fun h : Horse => h.finish_position == some 1)).head? with
      | none => simp [he, hw, raceInfoBase]
      | some w => simp [he, hw, raceInfoBase]
  · refine ⟨?_, ?_, ?_⟩ <;> decide

/-- C9 (amended): `horse_count` equals the number of parsed participant rows
when at least one row parsed; when zero rows qualify the field is left absent
(the `if horses:` guard skips the assignment), not set to zero. -/
theorem claim_C9_amended_participant_count (race_id : String) (soup : Soup) :
    ((parse_race_html_full race_id soup).2 = [] →
      (parse_race_html_full race_id soup).1.horse_count = none) ∧
    ((parse_race_html_full race_id soup).2 ≠ [] →
      (parse_race_html_full race_id soup).1.horse_count
        = some (parse_race_html_full race_id soup).2.length) := by
  unfold parse_race_html_full deriveRaceFields
  by_cases he : (raceHorses race_id soup).isEmpty
  · have hnil : raceHorses race_id soup = [] := by simpa using he
    simp [hnil, raceInfoBase]
  · have hne : raceHorses race_id soup ≠ [] := by simpa using he
    constructor
    · intro h; exact absurd h hne
    · intro _
      cases hw : (winners (raceHorses race_id soup)).head? <;> simp [he, hw]

/-- C9 witness: the amended theorem applied to the synthetic three-row
document. -/
theorem claim_C9_witness :
    (parse_race_html_full "202005010101" endToEndSoup).1.horse_count
      = some (parse_race_html_full "202005010101" endToEndSoup).2.length :=
  (claim_C9_amended_participant_count "202005010101" endToEndSoup).2 (by decide)

/-- C9 counterexample: a document with no results table parses zero
participant rows, yet `horse_count` is absent rather than 0 as the claim
states. -/
theorem claim_C9_counterexample :
    (parse_race_html_full "r1" (Soup.mk none)).2.length = 0 ∧
    (parse_race_html_full "r1" (Soup.mk none)).1.horse_count = none ∧
    ¬ (parse_race_html_full "r1" (Soup.mk none)).1.horse_count = some 0 := by
  decide

theorem oddsStep_odds (h : Horse) (c : Cell) :
    (oddsStep h c).odds =
      if h.odds = none ∧ odds_cell c = true then some (odds_value c) else h.odds := by
  unfold oddsStep
  by_cases hc : odds_cell c
  · by_cases ho : h.odds = none <;> simp [hc, ho]
  · simp [hc]

theorem popStep_pop (h : Horse) (c : Cell) :
    (popStep h c).popularity =
      if pop_cell c then some (pop_value c) else h.popularity := by
  unfold popStep
  by_cases hc : pop_cell c <;> simp [hc]

theorem popStep_odds (h : Horse) (c : Cell) : (popStep h c).odds = h.odds := by
  unfold popStep
  by_cases hc : pop_cell c <;> simp [hc]

theorem oddsStep_pop (h : Horse) (c : Cell) : (oddsStep h c).popularity = h.popularity := by
  unfold oddsStep
  by_cases hc : odds_cell c
  · by_cases ho : h.odds = none <;> simp [hc, ho]
  · simp [hc]

theorem foldl_step_odds :
    ∀ (cells : List Cell) (h : Horse),
      (cells.foldl oddsPopStep h).odds = h.odds.or ((cells.find? odds_cell).map odds_value)
  | [], h => by simp
  | c :: cs, h => by
    rw [List.foldl_cons, foldl_step_odds cs]
    unfold oddsPopStep
    rw [popStep_odds, oddsStep_odds]
    by_cases hc : odds_cell c
    · cases ho : h.odds <;>
        simp [hc, ho, List.find?_cons_of_pos]
    · cases ho : h.odds <;>
        simp [hc, ho, List.find?_cons_of_neg]

theorem foldl_step_pop :
    ∀ (cells : List Cell) (h : Horse),
      (cells.foldl oddsPopStep h).popularity
        = ((cells.reverse.find? pop_cell).map pop_value).or h.popularity
  | [], h => by simp
  | c :: cs, h => by
    rw [List.foldl_cons, foldl_step_pop cs]
    unfold oddsPopStep
    rw [popStep_pop, oddsStep_pop]
    rw [List.reverse_cons, List.find?_append]
    by_cases hc : pop_cell c
    · cases hf : cs.reverse.find? pop_cell <;> simp [hc, hf]
    · cases hf : cs.reverse.find? pop_cell <;> simp [hc, hf]

/-- C7 (amended): both market fields are recovered by scanning all cells with
the styling/marker heuristics; for `odds` the first matching cell wins and
later candidates are ignored, while for `popularity` each later matching
cell overwrites the earlier one, so the last matching cell wins. -/
theorem claim_C7_amended_market_scan (race_id : String) (cells : List Cell) :
    (parseHorseRow race_id cells).odds = (cells.find? odds_cell).map odds_value ∧
    (parseHorseRow race_id cells).popularity = (cells.reverse.find? pop_cell).map pop_value := by
  unfold parseHorseRow
  rw [foldl_step_odds, foldl_step_pop]
  constructor
  · rw [Option.none_or]
  · rw [Option.or_none]

def mlCellA : Cell := ⟨"", ["txt_ml"], some "3"⟩

def mlCellB : Cell := ⟨"", ["txt_ml"], some "7"⟩

/-- A synthetic ten-cell row holding two popularity-candidate cells, with
span values 3 then 7. -/
def c7row : List Cell :=
  [⟨"1", [], none⟩, ⟨"1", [], none⟩, ⟨"1", [], none⟩, ⟨"X", [], none⟩, ⟨"", [], none⟩,
   mlCellA, mlCellB, ⟨"1:10.0", [], none⟩, ⟨"", [], none⟩, ⟨"500.0", [], none⟩]

/-- C7 counterexample: with two plausible popularity cells (3 first, then 7)
the parsed `popularity` is 7 — the later candidate overwrote the first
plausible match, contradicting the claim that the first match wins. -/
theorem claim_C7_counterexample :
    (parseHorseRow "r2" c7row).popularity = some 7 ∧
    (c7row.find? pop_cell).map pop_value = some 3 := by
  decide

/-- C8 (amended): `parse_time_to_seconds` returns a value exactly on strings
whose PREFIX has the shape `M:SS.D` (maximal nonempty digit runs around a
colon and a dot); the value is `minutes*60 + seconds + decimals/10` computed
from that prefix, trailing input after the digit run being ignored; all other
strings give an absent value, and no exception path exists (the function is
total). -/
theorem claim_C8_amended_time_semantics (s : String) (q : ℚ) :
    parse_time_to_seconds s = some q ↔
      ∃ ms ss ds rest : List Char,
        s.data = ms ++ ':' :: (ss ++ '.' :: (ds ++ rest)) ∧
        ms ≠ [] ∧ ss ≠ [] ∧ ds ≠ [] ∧
        ms.all Char.isDigit = true ∧ ss.all Char.isDigit = true ∧
        ds.all Char.isDigit = true ∧
        (∀ c, rest.head? = some c → c.isDigit = false) ∧
        q = (digitsToNat ms : ℚ) * 60 + (digitsToNat ss : ℚ) + (digitsToNat ds : ℚ) / 10 := by
  constructor
  · intro hq
    unfold parse_time_to_seconds at hq
    by_cases hse : s = ""
    · rw [if_pos hse] at hq; exact absurd hq (by simp)
    rw [if_neg hse] at hq
    obtain ⟨md, hmd, hfq⟩ := Option.map_eq_some'.mp hq
    unfold matchTime3 at hmd
    by_cases h1 : (s.data.takeWhile Char.isDigit).isEmpty
    · rw [if_pos h1] at hmd; exact absurd hmd (by simp)
    rw [if_neg h1] at hmd
    cases he1 : expectChar ':' (s.data.dropWhile Char.isDigit) with
    | none => rw [he1] at hmd; exact absurd hmd (by simp)
    | some r1 =>
    rw [he1] at hmd
    simp only [Option.some_bind] at hmd
    by_cases h2 : (r1.takeWhile Char.isDigit).isEmpty
    · rw [if_pos h2] at hmd; exact absurd hmd (by simp)
    rw [if_neg h2] at hmd
    cases he2 : expectChar '.' (r1.dropWhile Char.isDigit) with
    | none => rw [he2] at hmd; exact absurd hmd (by simp)
    | some r2 =>
    rw [he2] at hmd
    simp only [Option.some_bind] at hmd
    by_cases h3 : (r2.takeWhile Char.isDigit).isEmpty
    · rw [if_pos h3] at hmd; exact absurd hmd (by simp)
    rw [if_neg h3] at hmd
    have hmdv : md = (digitsToNat (s.data.takeWhile Char.isDigit),
        digitsToNat (r1.takeWhile Char.isDigit), digitsToNat (r2.takeWhile Char.isDigit)) := by
      exact (Option.some_inj.mp hmd).symm
    refine ⟨s.data.takeWhile Char.isDigit, r1.takeWhile Char.isDigit,
      r2.takeWhile Char.isDigit, r2.dropWhile Char.isDigit, ?_, ?_, ?_, ?_, ?_, ?_, ?_, ?_, ?_⟩
    · have e1 : s.data.dropWhile Char.isDigit = ':' :: r1 := expectChar_eq_some.mp he1
      have e2 : r1.dropWhile Char.isDigit = '.' :: r2 := expectChar_eq_some.mp he2
      have hx : s.data = (s.data.takeWhile Char.isDigit) ++ (':' :: r1) := by
        rw [← e1, List.takeWhile_append_dropWhile]
      have hr1 : r1 = (r1.takeWhile Char.isDigit) ++ ('.' :: r2) := by
        rw [← e2, List.takeWhile_append_dropWhile]
      have hr2 : r2 = (r2.takeWhile Char.isDigit) ++ (r2.dropWhile Char.isDigit) :=
        (List.takeWhile_append_dropWhile _ _).symm
      conv_lhs => rw [hx, hr1, hr2]
    · simpa using h1
    · simpa using h2
    · simpa using h3
    · exact List.all_takeWhile
    · exact List.all_takeWhile
    · exact List.all_takeWhile
    · intro c hc
      have hh := List.head?_dropWhile_not Char.isDigit r2
      rw [hc] at hh
      exact hh
    · rw [← hfq, hmdv]
      exact mkRat_time_value (digitsToNat (s.data.takeWhile Char.isDigit))
        (digitsToNat (r1.takeWhile Char.isDigit))
        (digitsToNat (r2.takeWhile Char.isDigit))
  · rintro ⟨ms, ss, ds, rest, hdata, hms, hss, hds, hams, hass, hads, hrest, hqv⟩
    have hcolon : ∀ c : Char, ((':' :: (ss ++ '.' :: (ds ++ rest))).head? = some c →
        Char.isDigit c = false) := by
      intro c hc
      have : c = ':' := by simpa using hc.symm
      subst this; decide
    have hdot : ∀ c : Char, (('.' :: (ds ++ rest)).head? = some c →
        Char.isDigit c = false) := by
      intro c hc
      have : c = '.' := by simpa using hc.symm
      subst this; decide
    have t1 := takeWhile_all_head Char.isDigit ms (':' :: (ss ++ '.' :: (ds ++ rest))) hams hcolon
    have t2 := takeWhile_all_head Char.isDigit ss ('.' :: (ds ++ rest)) hass hdot
    have t3 := takeWhile_all_head Char.isDigit ds rest hads hrest
    have hse : s ≠ "" := by
      intro h
      rw [h] at hdata
      have hnil : ("" : String).data = [] := rfl
      rw [hnil] at hdata
      cases ms with
      | nil => exact hms rfl
      | cons a l => simp at hdata
    have hmsF : ms.isEmpty = false := by simpa using hms
    have hssF : ss.isEmpty = false := by simpa using hss
    have hdsF : ds.isEmpty = false := by simpa using hds
    have e1 : expectChar ':' (':' :: (ss ++ '.' :: (ds ++ rest)))
        = some (ss ++ '.' :: (ds ++ rest)) := expectChar_eq_some.mpr rfl
    have e2 : expectChar '.' ('.' :: (ds ++ rest)) = some (ds ++ rest) :=
      expectChar_eq_some.mpr rfl
    have hmatch : matchTime3 s.data
        = some (digitsToNat ms, digitsToNat ss, digitsToNat ds) := by
      unfold matchTime3
      rw [hdata]
      simp only [t1.1, t1.2, t2.1, t2.2, t3.1, e1, e2, Option.some_bind, hmsF, hssF, hdsF,
        Bool.false_eq_true, if_false]
    unfold parse_time_to_seconds
    rw [if_neg hse, hmatch]
    rw [hqv]
    exact congrArg some (mkRat_time_value _ _ _)

/-- C8 witness: the amended theorem applied at the concrete input "1:08.8",
whose value 68.8 seconds is computed by `decide`. -/
theorem claim_C8_witness :
    ∃ ms ss ds rest : List Char,
      "1:08.8".data = ms ++ ':' :: (ss ++ '.' :: (ds ++ rest)) ∧
      ms ≠ [] ∧ ss ≠ [] ∧ ds ≠ [] ∧
      ms.all Char.isDigit = true ∧ ss.all Char.isDigit = true ∧
      ds.all Char.isDigit = true ∧
      (∀ c, rest.head? = some c → c.isDigit = false) ∧
      mkRat 688 10 = (digitsToNat ms : ℚ) * 60 + (digitsToNat ss : ℚ)
        + (digitsToNat ds : ℚ) / 10 :=
  (claim_C8_amended_time_semantics "1:08.8" (mkRat 688 10)).mp (by decide)

/-- C8 counterexample: `"1:08.8x"` is not of the form `M:SS.D` (it carries a
trailing `x`, a character that is neither a digit, nor the colon, nor the
dot), yet the code returns 68.8 seconds for it instead of the absent value
the claim requires for every non-matching string. -/
theorem claim_C8_counterexample :
    parse_time_to_seconds "1:08.8x" = some (mkRat 688 10) ∧
    ('x' ∈ "1:08.8x".data ∧ 'x'.isDigit = false ∧ ¬ ('x' = ':') ∧ ¬ ('x' = '.')) := by
  decide

/-! ### Tree walker, batch runner and incremental merge -/

/-- One stored document: either unreadable (its `open`/parse raises, caught
by the batch runner's `except` branch) or a parseable page. -/
inductive HtmlFile where
  | unreadable : HtmlFile
  | page : Soup → HtmlFile
deriving DecidableEq

/-- The input tree: the root's year directories with their file listings, in
arbitrary (filesystem enumeration) order.  Only directories are modelled at
the root, mirroring the `is_dir()` filter. -/
structure Tree where
  dirs : List (String × List (String × HtmlFile))
deriving DecidableEq

/-- The `*.html` glob filter. -/
def htmlName (s : String) : Bool :=
  (".html").data.isSuffixOf s.data

/-- `Path.stem` for a name carrying the `.html` suffix. -/
def stem (s : String) : String :=
  ⟨s.data.take (s.data.length - 5)⟩

/-- Lexicographic code-point order on character lists: the order Python's
`sorted` puts sibling path names in. -/
def listLe : List Char → List Char → Bool
  | [], _ => true
  | _ :: _, [] => false
  | a :: as, b :: bs =>
    if a.toNat < b.toNat then true
    else if b.toNat < a.toNat then false
    else listLe as bs

def nameLe (a b : String) : Bool := listLe a.data b.data

theorem listLe_total : ∀ a b : List Char, listLe a b = true ∨ listLe b a = true
  | [], _ => Or.inl rfl
  | _ :: _, [] => Or.inr rfl
  | a :: as, b :: bs => by
    by_cases h1 : a.toNat < b.toNat
    · exact Or.inl (by simp [listLe, h1])
    · by_cases h2 : b.toNat < a.toNat
      · exact Or.inr (by simp [listLe, h1, h2])
      · rcases listLe_total as bs with h | h
        · exact Or.inl (by simp [listLe, h1, h2, h])
        · exact Or.inr (by simp [listLe, h1, h2, h])

theorem listLe_trans : ∀ {a b c : List Char},
    listLe a b = true → listLe b c = true → listLe a c = true
  | [], _, _, _, _ => rfl
  | a :: as, [], c, hab, _ => by simp [listLe] at hab
  | a :: as, b :: bs, [], _, hbc => by simp [listLe] at hbc
  | a :: as, b :: bs, c :: cs, hab, hbc => by
    simp only [listLe] at hab hbc ⊢
    rcases Nat.lt_trichotomy a.toNat b.toNat with h1 | h1 | h1 <;>
      rcases Nat.lt_trichotomy b.toNat c.toNat with h2 | h2 | h2 <;>
    first
      | (rw [if_pos (by omega)])
      | (rw [if_neg (by omega), if_neg (by omega)]
         rw [if_neg (by omega), if_neg (by omega)] at hab hbc
         exact listLe_trans hab hbc)
      | (exfalso
         rw [if_neg (by omega), if_pos (by omega)] at hab
         exact Bool.false_ne_true hab)
      | (exfalso
         rw [if_neg (by omega), if_pos (by omega)] at hbc
         exact Bool.false_ne_true hbc)

theorem listLe_antisymm : ∀ {a b : List Char},
    listLe a b = true → listLe b a = true → a = b
  | [], [], _, _ => rfl
  | [], _ :: _, _, hba => by simp [listLe] at hba
  | _ :: _, [], hab, _ => by simp [listLe] at hab
  | a :: as, b :: bs, hab, hba => by
    simp only [listLe] at hab hba
    by_cases h1 : a.toNat < b.toNat <;> by_cases h2 : b.toNat < a.toNat <;>
      simp [h1, h2] at hab hba
    · omega
    · have hn : a.toNat = b.toNat := by omega
      have hc : a = b := by
        have := congrArg Char.ofNat hn
        rwa [Char.ofNat_toNat, Char.ofNat_toNat] at this
      rw [hc, listLe_antisymm hab hba]

/-- Name order on directory entries. -/
def keyLe {β : Type} (a b : String × β) : Prop := nameLe a.1 b.1 = true

instance {β : Type} : DecidableRel (@keyLe β) :=
  fun a b => inferInstanceAs (Decidable (nameLe a.1 b.1 = true))

instance {β : Type} : IsTotal (String × β) keyLe := ⟨fun a b => listLe_total a.1.data b.1.data⟩

instance {β : Type} : IsTrans (String × β) keyLe :=
  ⟨fun _ _ _ h1 h2 => listLe_trans h1 h2⟩

def sortByKey {β : Type} (l : List (String × β)) : List (String × β) :=
  List.insertionSort keyLe l

/-- Python truthiness of the optional per-year cap (`if limit_per_year:`) —
`None` and `0` are both falsy. -/
def limTruthy : Option Nat → Bool
  | none => false
  | some k => decide (k ≠ 0)

/-- The loop state of `parse_multiple_html_full`, plus a ghost trace:
`calls` records each progress-callback invocation's arguments and `attempts`
records each year's final `year_count`. -/
structure WalkSt where
  race_list : List RaceInfo
  horse_list : List Horse
  skipped : Nat
  processed : Nat
  calls : List (Nat × Nat × Nat)
  attempts : List Nat
deriving DecidableEq

def initSt : WalkSt := ⟨[], [], 0, 0, [], []⟩

/-- The event fields denormalized onto each participant row by the batch
runner (restricted to the modelled fields). -/
def denorm (ri : RaceInfo) (h : Horse) : Horse :=
  { h with race_level := ri.race_level, level_score := ri.level_score,
           venue_code := ri.venue_code, venue_name := some ri.venue_name }

/-- The skip branch: known `race_id`, counters advance, no parse. -/
def skipStep (st : WalkSt) : WalkSt :=
  {st with skipped := st.skipped + 1, processed := st.processed + 1}

/-- The except branch: the parse raised, only `processed` advances. -/
def failStep (st : WalkSt) : WalkSt :=
  {st with processed := st.processed + 1}

/-- The success branch: parse, append the event row and the denormalized
participant rows, advance the counter, and report progress when the counter
is a multiple of 100 and a callback was supplied. -/
def goodStep (cb : Bool) (total : Nat) (rid : String) (soup : Soup) (st : WalkSt) : WalkSt :=
  let res := parse_race_html_full rid soup
  let st1 := {st with
    race_list := st.race_list ++ [res.1],
    horse_list := st.horse_list ++ res.2.map (denorm res.1),
    processed := st.processed + 1}
  if cb = true ∧ (st.processed + 1) % 100 = 0 then
    {st1 with calls := st1.calls ++ [(st1.processed, total, st1.skipped)]}
  else st1

/-- The `for html_file in sorted(year_dir.glob(...))` loop: break once the
truthy cap is reached, skip documents whose stem is in the (truthy) existing
id set, otherwise attempt the parse; `yc` is `year_count`. -/
def walkFiles (ex : List String) (lim : Option Nat) (cb : Bool) (total : Nat) :
    List (String × HtmlFile) → Nat → WalkSt → WalkSt × Nat
  | [], yc, st => (st, yc)
  | (name, f) :: rest, yc, st =>
    if limTruthy lim = true ∧ lim.getD 0 ≤ yc then (st, yc)
    else if ex ≠ [] ∧ stem name ∈ ex then
      walkFiles ex lim cb total rest yc (skipStep st)
    else
      match f with
      | HtmlFile.unreadable => walkFiles ex lim cb total rest (yc + 1) (failStep st)
      | HtmlFile.page soup =>
        walkFiles ex lim cb total rest (yc + 1) (goodStep cb total (stem name) soup st)

/-- One year directory's in-scope files: the `*.html` entries in sorted
name order. -/
def yearFiles (listing : List (String × HtmlFile)) : List (String × HtmlFile) :=
  sortByKey (listing.filter (fun e => htmlName e.1))

/-- One year directory's walk: run the file loop from `year_count = 0` and
trace the final `year_count` in `attempts`. -/
def yearStep (ex : List String) (lim : Option Nat) (cb : Bool) (total : Nat)
    (listing : List (String × HtmlFile)) (st : WalkSt) : WalkSt :=
  let p := walkFiles ex lim cb total (yearFiles listing) 0 st
  {p.1 with attempts := p.1.attempts ++ [p.2]}

/-- The outer `for year_dir in year_dirs` loop; `year_count` restarts at 0
for each directory. -/
def walkYears (ex : List String) (lim : Option Nat) (cb : Bool) (total : Nat) :
    List (String × List (String × HtmlFile)) → WalkSt → WalkSt
  | [], st => st
  | (_, listing) :: rest, st =>
    walkYears ex lim cb total rest (yearStep ex lim cb total listing st)

/-- The year-directory selection: all root directories in sorted name order
when `years` is None, else the directories named by `years` in the argument
list's own order, existing ones only. -/
def year_dirs (t : Tree) (years : Option (List Nat)) :
    List (String × List (String × HtmlFile)) :=
  match years with
  | none => sortByKey t.dirs
  | some ys => ys.filterMap (fun y => t.dirs.find? (fun d => d.1 == toString y))

/-- The progress total estimate: `len(year_dirs) * limit_per_year` when the
cap is truthy, else the total `*.html` count over the year directories. -/
def total_files (t : Tree) (years : Option (List Nat)) (lim : Option Nat) : Nat :=
  let dirs := year_dirs t years
  if limTruthy lim = true then dirs.length * lim.getD 0
  else (dirs.map (fun d => (d.2.filter (fun e => htmlName e.1)).length)).sum

/-- The batch runner (`parse_multiple_html_full`): walk the selected year
directories and deliver one final progress report when a callback was
supplied. -/
def parse_multiple_html_full (t : Tree) (years : Option (List Nat)) (cb : Bool)
    (ex : List String) (lim : Option Nat) : WalkSt :=
  let total := total_files t years lim
  let st := walkYears ex lim cb total (year_dirs t years) initSt
  if cb then {st with calls := st.calls ++ [(st.processed, total, st.skipped)]} else st

/-- The persisted dataset pair: event table and participant table, in row
order. -/
structure Store where
  races : List RaceInfo
  results : List Horse
deriving DecidableEq

/-- Rows of the persisted event table (empty when no table exists yet). -/
def racesOf (store : Option Store) : List RaceInfo :=
  match store with
  | some st => st.races
  | none => []

/-- Rows of the persisted participant table. -/
def resultsOf (store : Option Store) : List Horse :=
  match store with
  | some st => st.results
  | none => []

/-- Ids present in the persisted event table (the `existing_race_ids` set;
modelled as the id list, membership being all the code uses). -/
def storeIds (store : Option Store) : List String :=
  (racesOf store).map (fun r => r.race_id)

/-- Incremental merge against Parquet storage (`parse_incremental_parquet`):
parse only unseen documents; when nothing new was parsed, report `(0, 0)`
and leave storage untouched; otherwise append the new rows after all
existing rows and persist the combined tables. -/
def parse_incremental_parquet (store : Option Store) (t : Tree)
    (years : Option (List Nat)) (lim : Option Nat) (cb : Bool) :
    (Nat × Nat) × Option Store :=
  let w := parse_multiple_html_full t years cb (storeIds store) lim
  if w.race_list.length = 0 then ((0, 0), store)
  else
    ((w.race_list.length, w.horse_list.length),
      some ⟨racesOf store ++ w.race_list, resultsOf store ++ w.horse_list⟩)

/-- Incremental merge against CSV storage (`parse_incremental`): identical
reconciliation, and the function has no per-year cap parameter. -/
def parse_incremental (store : Option Store) (t : Tree) (years : Option (List Nat))
    (cb : Bool) : (Nat × Nat) × Option Store :=
  let w := parse_multiple_html_full t years cb (storeIds store) none
  if w.race_list.length = 0 then ((0, 0), store)
  else
    ((w.race_list.length, w.horse_list.length),
      some ⟨racesOf store ++ w.race_list, resultsOf store ++ w.horse_list⟩)

/-! ### Step lemmas for the walker -/

theorem goodStep_race_list (cb : Bool) (total : Nat) (rid : String) (soup : Soup)
    (st : WalkSt) :
    (goodStep cb total rid soup st).race_list
      = st.race_list ++ [(parse_race_html_full rid soup).1] := by
  simp only [goodStep]
  split_ifs <;> rfl

theorem goodStep_horse_list (cb : Bool) (total : Nat) (rid : String) (soup : Soup)
    (st : WalkSt) :
    (goodStep cb total rid soup st).horse_list
      = st.horse_list ++ (parse_race_html_full rid soup).2.map
          (denorm (parse_race_html_full rid soup).1) := by
  simp only [goodStep]
  split_ifs <;> rfl

theorem goodStep_attempts (cb : Bool) (total : Nat) (rid : String) (soup : Soup)
    (st : WalkSt) : (goodStep cb total rid soup st).attempts = st.attempts := by
  simp only [goodStep]
  split_ifs <;> rfl

theorem goodStep_calls_inv (cb : Bool) (total : Nat) (rid : String) (soup : Soup)
    (st : WalkSt) (hc : ∀ x ∈ st.calls, x.1 % 100 = 0) :
    ∀ x ∈ (goodStep cb total rid soup st).calls, x.1 % 100 = 0 := by
  simp only [goodStep]
  split_ifs with h
  · intro x hx
    rcases List.mem_append.mp hx with hx | hx
    · exact hc x hx
    · have : x = (st.processed + 1, total, st.skipped) := by simpa using hx
      rw [this]
      exact h.2
  · exact hc

theorem goodStep_calls_nocb (total : Nat) (rid : String) (soup : Soup) (st : WalkSt) :
    (goodStep false total rid soup st).calls = st.calls := by
  simp only [goodStep]
  rw [if_neg (by simp)]

theorem walkFiles_attempts (ex : List String) (lim : Option Nat) (cb : Bool) (total : Nat) :
    ∀ (fs : List (String × HtmlFile)) (yc : Nat) (st : WalkSt),
      (walkFiles ex lim cb total fs yc st).1.attempts = st.attempts
  | [], _, _ => rfl
  | (name, f) :: rest, yc, st => by
    unfold walkFiles
    split_ifs with hb hs
    · rfl
    · rw [walkFiles_attempts ex lim cb total rest yc (skipStep st)]; rfl
    · cases f with
      | unreadable => rw [walkFiles_attempts ex lim cb total rest (yc + 1) (failStep st)]; rfl
      | page soup =>
        rw [walkFiles_attempts ex lim cb total rest (yc + 1) _]
        exact goodStep_attempts cb total (stem name) soup st

theorem walkFiles_calls_inv (ex : List String) (lim : Option Nat) (cb : Bool) (total : Nat) :
    ∀ (fs : List (String × HtmlFile)) (yc : Nat) (st : WalkSt),
      (∀ x ∈ st.calls, x.1 % 100 = 0) →
      ∀ x ∈ (walkFiles ex lim cb total fs yc st).1.calls, x.1 % 100 = 0
  | [], _, _, hc => hc
  | (name, f) :: rest, yc, st, hc => by
    unfold walkFiles
    split_ifs with hb hs
    · exact hc
    · exact walkFiles_calls_inv ex lim cb total rest yc (skipStep st) hc
    · cases f with
      | unreadable => exact walkFiles_calls_inv ex lim cb total rest (yc + 1) (failStep st) hc
      | page soup =>
        exact walkFiles_calls_inv ex lim cb total rest (yc + 1) _
          (goodStep_calls_inv cb total (stem name) soup st hc)

theorem walkFiles_calls_nocb (ex : List String) (lim : Option Nat) (total : Nat) :
    ∀ (fs : List (String × HtmlFile)) (yc : Nat) (st : WalkSt),
      (walkFiles ex lim false total fs yc st).1.calls = st.calls
  | [], _, _ => rfl
  | (name, f) :: rest, yc, st => by
    unfold walkFiles
    split_ifs with hb hs
    · rfl
    · rw [walkFiles_calls_nocb ex lim total rest yc (skipStep st)]; rfl
    · cases f with
      | unreadable => rw [walkFiles_calls_nocb ex lim total rest (yc + 1) (failStep st)]; rfl
      | page soup =>
        rw [walkFiles_calls_nocb ex lim total rest (yc + 1) _]
        exact goodStep_calls_nocb total (stem name) soup st

theorem yearStep_race_list (ex : List String) (lim : Option Nat) (cb : Bool) (total : Nat)
    (listing : List (String × HtmlFile)) (st : WalkSt) :
    (yearStep ex lim cb total listing st).race_list
      = (walkFiles ex lim cb total (yearFiles listing) 0 st).1.race_list := rfl

theorem yearStep_horse_list (ex : List String) (lim : Option Nat) (cb : Bool) (total : Nat)
    (listing : List (String × HtmlFile)) (st : WalkSt) :
    (yearStep ex lim cb total listing st).horse_list
      = (walkFiles ex lim cb total (yearFiles listing) 0 st).1.horse_list := rfl

theorem yearStep_calls (ex : List String) (lim : Option Nat) (cb : Bool) (total : Nat)
    (listing : List (String × HtmlFile)) (st : WalkSt) :
    (yearStep ex lim cb total listing st).calls
      = (walkFiles ex lim cb total (yearFiles listing) 0 st).1.calls := rfl

theorem yearStep_attempts (ex : List String) (lim : Option Nat) (cb : Bool) (total : Nat)
    (listing : List (String × HtmlFile)) (st : WalkSt) :
    (yearStep ex lim cb total listing st).attempts
      = (walkFiles ex lim cb total (yearFiles listing) 0 st).1.attempts
        ++ [(walkFiles ex lim cb total (yearFiles listing) 0 st).2] := rfl

theorem walkYears_calls_inv (ex : List String) (lim : Option Nat) (cb : Bool) (total : Nat) :
    ∀ (dirs : List (String × List (String × HtmlFile))) (st : WalkSt),
      (∀ x ∈ st.calls, x.1 % 100 = 0) →
      ∀ x ∈ (walkYears ex lim cb total dirs st).calls, x.1 % 100 = 0
  | [], _, hc => hc
  | (nm, listing) :: rest, st, hc => by
    unfold walkYears
    exact walkYears_calls_inv ex lim cb total rest _
      (walkFiles_calls_inv ex lim cb total (yearFiles listing) 0 st hc)

theorem walkYears_calls_nocb (ex : List String) (lim : Option Nat) (total : Nat) :
    ∀ (dirs : List (String × List (String × HtmlFile))) (st : WalkSt),
      (walkYears ex lim false total dirs st).calls = st.calls
  | [], _ => rfl
  | (nm, listing) :: rest, st => by
    unfold walkYears
    rw [walkYears_calls_nocb ex lim total rest _]
    exact walkFiles_calls_nocb ex lim total (yearFiles listing) 0 st

theorem walkFiles_yc_le (ex : List String) (k : Nat) (cb : Bool) (total : Nat)
    (hk : 1 ≤ k) :
    ∀ (fs : List (String × HtmlFile)) (yc : Nat) (st : WalkSt), yc ≤ k →
      (walkFiles ex (some k) cb total fs yc st).2 ≤ k
  | [], _, _, h => h
  | (name, f) :: rest, yc, st, h => by
    unfold walkFiles
    split_ifs with hb hs
    · exact h
    · exact walkFiles_yc_le ex k cb total hk rest yc (skipStep st) h
    · have hyc : yc < k := by
        rcases Nat.lt_or_ge yc k with h1 | h1
        · exact h1
        · exact absurd ⟨by simp [limTruthy]; omega, by simpa using h1⟩ hb
      cases f with
      | unreadable =>
        exact walkFiles_yc_le ex k cb total hk rest (yc + 1) (failStep st) (by omega)
      | page soup => exact walkFiles_yc_le ex k cb total hk rest (yc + 1) _ (by omega)

theorem walkYears_attempts_le (ex : List String) (k : Nat) (cb : Bool) (total : Nat)
    (hk : 1 ≤ k) :
    ∀ (dirs : List (String × List (String × HtmlFile))) (st : WalkSt),
      (∀ a ∈ st.attempts, a ≤ k) →
      ∀ a ∈ (walkYears ex (some k) cb total dirs st).attempts, a ≤ k
  | [], _, hst => hst
  | (nm, listing) :: rest, st, hst => by
    unfold walkYears
    refine walkYears_attempts_le ex k cb total hk rest _ ?_
    intro a ha
    rw [yearStep_attempts, walkFiles_attempts] at ha
    rcases List.mem_append.mp ha with ha | ha
    · exact hst a ha
    · have : a = (walkFiles ex (some k) cb total (yearFiles listing) 0 st).2 := by simpa using ha
      rw [this]
      exact walkFiles_yc_le ex k cb total hk (yearFiles listing) 0 st (Nat.zero_le k)

/-! ### C6 and C10 -/

/-- C6 (amended): with a callback supplied, exactly one terminal report with
the final `(processed, total_estimate, skipped)` is always delivered, and
every non-terminal invocation happens at a processed counter that is a
multiple of 100 — but only when the 100th processed document was successfully
parsed: a skipped or failed document advances the counter without ever
triggering a mid-run invocation (see the counterexample); with no callback
there is no invocation at all. -/
theorem claim_C6_amended_progress (t : Tree) (years : Option (List Nat))
    (ex : List String) (lim : Option Nat) :
    (parse_multiple_html_full t years true ex lim).calls.getLast?
        = some ((parse_multiple_html_full t years true ex lim).processed,
                total_files t years lim,
                (parse_multiple_html_full t years true ex lim).skipped) ∧
    (∀ c ∈ (parse_multiple_html_full t years true ex lim).calls.dropLast, c.1 % 100 = 0) ∧
    (parse_multiple_html_full t years false ex lim).calls = [] := by
  refine ⟨?_, ?_, ?_⟩
  · simp only [parse_multiple_html_full, if_pos]
    rw [List.getLast?_concat]
  · simp only [parse_multiple_html_full, if_pos]
    rw [List.dropLast_concat]
    exact walkYears_calls_inv ex lim true (total_files t years lim) (year_dirs t years) initSt
      (by intro x hx; simp [initSt] at hx)
  · simp only [parse_multiple_html_full]
    rw [if_neg (by simp)]
    exact walkYears_calls_nocb ex lim (total_files t years lim) (year_dirs t years) initSt

/-- C6 witness: the amended theorem applied to the empty tree. -/
theorem claim_C6_witness :
    (parse_multiple_html_full (Tree.mk []) none true [] none).calls.getLast?
      = some ((parse_multiple_html_full (Tree.mk []) none true [] none).processed,
              total_files (Tree.mk []) none none,
              (parse_multiple_html_full (Tree.mk []) none true [] none).skipped) :=
  (claim_C6_amended_progress (Tree.mk []) none [] none).1

/-- One hundred in-scope documents, the last of which (in sorted name order)
is skipped because its stem `z` is already known. -/
def c6files : List (String × HtmlFile) :=
  ((List.range 99).map (fun i => ((toString (100 + i)) ++ ".html", HtmlFile.page ⟨none⟩)))
    ++ [("z.html", HtmlFile.page ⟨none⟩)]

set_option maxRecDepth 100000 in
/-- C6 counterexample: a run that processes exactly 100 documents where the
100th processed one is a skip.  The claim requires a cadence invocation at
the 100th processed document plus a terminal one (at least two calls); the
code delivers only the single terminal call `(100, 100, 1)` because the skip
branch bypasses the cadence check. -/
theorem claim_C6_counterexample :
    (parse_multiple_html_full (Tree.mk [("2020", c6files)]) none true ["z"] none).calls
      = [(100, 100, 1)] ∧
    (parse_multiple_html_full (Tree.mk [("2020", c6files)]) none true ["z"] none).processed
      = 100 := by
  decide

/-- C10 (amended): with a per-year cap `k ≥ 1` every year directory
contributes at most `k` parse attempts (successes and failures both count,
as `attempts` traces each year's final `year_count`), and a document skipped
for being already known consumes none of the cap: the skip branch recurses
with the same `year_count`, only bumping the processed/skipped counters. -/
theorem claim_C10_amended_per_year_cap (t : Tree) (years : Option (List Nat)) (cb : Bool)
    (ex : List String) (k : Nat) (hk : 1 ≤ k) :
    (∀ a ∈ (parse_multiple_html_full t years cb ex (some k)).attempts, a ≤ k) ∧
    (∀ (name : String) (f : HtmlFile) (fs : List (String × HtmlFile)) (yc : Nat)
        (st : WalkSt) (total : Nat), yc < k → ex ≠ [] → stem name ∈ ex →
        walkFiles ex (some k) cb total ((name, f) :: fs) yc st
          = walkFiles ex (some k) cb total fs yc (skipStep st)) := by
  constructor
  · have hbase : ∀ a ∈ (walkYears ex (some k) cb (total_files t years (some k))
        (year_dirs t years) initSt).attempts, a ≤ k :=
      walkYears_attempts_le ex k cb (total_files t years (some k)) hk (year_dirs t years) initSt
        (by intro a ha; simp [initSt] at ha)
    intro a ha
    refine hbase a ?_
    simp only [parse_multiple_html_full] at ha
    split_ifs at ha <;> simpa using ha
  · intro name f fs yc st total hyc hne hmem
    show (if limTruthy (some k) = true ∧ (some k).getD 0 ≤ yc then (st, yc)
        else if ex ≠ [] ∧ stem name ∈ ex then
          walkFiles ex (some k) cb total fs yc (skipStep st)
        else match f with
          | HtmlFile.unreadable => walkFiles ex (some k) cb total fs (yc + 1) (failStep st)
          | HtmlFile.page soup =>
            walkFiles ex (some k) cb total fs (yc + 1) (goodStep cb total (stem name) soup st))
      = walkFiles ex (some k) cb total fs yc (skipStep st)
    rw [if_neg (by rintro ⟨-, hge⟩; simp at hge; omega), if_pos ⟨hne, hmem⟩]

/-- C10 witness: the amended theorem applied to a one-document tree with
cap 1: its single year's attempt count is bounded by the cap. -/
theorem claim_C10_witness : 1 ≤ 1 :=
  (claim_C10_amended_per_year_cap (Tree.mk [("2020", [("a.html", HtmlFile.page ⟨none⟩)])])
    none false [] 1 (by decide)).1 1 (by decide)

/-- C10 counterexample: with `limit_per_year = 0` (non-None), the Python
truthiness test `if limit_per_year:` disables the cap entirely, so the year
still performs one parse attempt, contradicting the claimed bound of zero
attempts. -/
theorem claim_C10_counterexample :
    (parse_multiple_html_full (Tree.mk [("2020", [("a.html", HtmlFile.page ⟨none⟩)])])
        none false [] (some 0)).attempts = [1] ∧ ¬ (1 ≤ 0) := by
  decide

/-! ### No-new-rows, monotonicity and coverage lemmas for the merge claims -/

theorem yearFiles_mem {listing : List (String × HtmlFile)} {nf : String × HtmlFile}
    (h : nf ∈ yearFiles listing) : nf ∈ listing ∧ htmlName nf.1 = true := by
  unfold yearFiles sortByKey at h
  rw [(List.perm_insertionSort keyLe _).mem_iff] at h
  exact ⟨(List.mem_filter.mp h).1, (List.mem_filter.mp h).2⟩

theorem yearFiles_mem_of (listing : List (String × HtmlFile)) (nf : String × HtmlFile)
    (h1 : nf ∈ listing) (h2 : htmlName nf.1 = true) : nf ∈ yearFiles listing := by
  unfold yearFiles sortByKey
  rw [(List.perm_insertionSort keyLe _).mem_iff]
  exact List.mem_filter.mpr ⟨h1, h2⟩

theorem walkFiles_no_new (ex : List String) (lim : Option Nat) (cb : Bool) (total : Nat) :
    ∀ (fs : List (String × HtmlFile)) (yc : Nat) (st : WalkSt),
      (∀ nf ∈ fs, ∀ soup, nf.2 = HtmlFile.page soup → ex ≠ [] ∧ stem nf.1 ∈ ex) →
      (walkFiles ex lim cb total fs yc st).1.race_list = st.race_list ∧
      (walkFiles ex lim cb total fs yc st).1.horse_list = st.horse_list
  | [], _, _, _ => ⟨rfl, rfl⟩
  | (name, f) :: rest, yc, st, hall => by
    have htail : ∀ nf ∈ rest, ∀ soup, nf.2 = HtmlFile.page soup →
        ex ≠ [] ∧ stem nf.1 ∈ ex :=
      fun nf hnf => hall nf (List.mem_cons_of_mem _ hnf)
    unfold walkFiles
    split_ifs with hb hs
    · exact ⟨rfl, rfl⟩
    · simpa [skipStep] using walkFiles_no_new ex lim cb total rest yc (skipStep st) htail
    · cases f with
      | unreadable =>
        simpa [failStep] using
          walkFiles_no_new ex lim cb total rest (yc + 1) (failStep st) htail
      | page soup =>
        exact absurd (hall (name, HtmlFile.page soup) (List.mem_cons_self _ _) soup rfl) hs

theorem walkYears_no_new (ex : List String) (lim : Option Nat) (cb : Bool) (total : Nat) :
    ∀ (dirs : List (String × List (String × HtmlFile))) (st : WalkSt),
      (∀ d ∈ dirs, ∀ nf ∈ d.2, htmlName nf.1 = true →
        ∀ soup, nf.2 = HtmlFile.page soup → ex ≠ [] ∧ stem nf.1 ∈ ex) →
      (walkYears ex lim cb total dirs st).race_list = st.race_list ∧
      (walkYears ex lim cb total dirs st).horse_list = st.horse_list
  | [], _, _ => ⟨rfl, rfl⟩
  | (nm, listing) :: rest, st, hall => by
    unfold walkYears
    have hfiles : ∀ nf ∈ yearFiles listing, ∀ soup, nf.2 = HtmlFile.page soup →
        ex ≠ [] ∧ stem nf.1 ∈ ex := by
      intro nf hnf soup hsoup
      have hm := yearFiles_mem hnf
      exact hall (nm, listing) (List.mem_cons_self _ _) nf hm.1 hm.2 soup hsoup
    have hf := walkFiles_no_new ex lim cb total (yearFiles listing) 0 st hfiles
    have ht := walkYears_no_new ex lim cb total rest (yearStep ex lim cb total listing st)
      (fun d hd => hall d (List.mem_cons_of_mem _ hd))
    refine ⟨?_, ?_⟩
    · rw [ht.1, yearStep_race_list]; exact hf.1
    · rw [ht.2, yearStep_horse_list]; exact hf.2

theorem walkFiles_race_mono (ex : List String) (lim : Option Nat) (cb : Bool) (total : Nat) :
    ∀ (fs : List (String × HtmlFile)) (yc : Nat) (st : WalkSt) (x : RaceInfo),
      x ∈ st.race_list → x ∈ (walkFiles ex lim cb total fs yc st).1.race_list
  | [], _, _, x, hx => hx
  | (name, f) :: rest, yc, st, x, hx => by
    unfold walkFiles
    split_ifs with hb hs
    · exact hx
    · exact walkFiles_race_mono ex lim cb total rest yc (skipStep st) x hx
    · cases f with
      | unreadable => exact walkFiles_race_mono ex lim cb total rest (yc + 1) (failStep st) x hx
      | page soup =>
        refine walkFiles_race_mono ex lim cb total rest (yc + 1) _ x ?_
        rw [goodStep_race_list]
        exact List.mem_append_left _ hx

theorem walkYears_race_mono (ex : List String) (lim : Option Nat) (cb : Bool) (total : Nat) :
    ∀ (dirs : List (String × List (String × HtmlFile))) (st : WalkSt) (x : RaceInfo),
      x ∈ st.race_list → x ∈ (walkYears ex lim cb total dirs st).race_list
  | [], _, x, hx => hx
  | (nm, listing) :: rest, st, x, hx => by
    unfold walkYears
    refine walkYears_race_mono ex lim cb total rest _ x ?_
    rw [yearStep_race_list]
    exact walkFiles_race_mono ex lim cb total (yearFiles listing) 0 st x hx

theorem parse_race_id (rid : String) (soup : Soup) :
    (parse_race_html_full rid soup).1.race_id = rid := by
  unfold parse_race_html_full deriveRaceFields
  by_cases he : (raceHorses rid soup).isEmpty
  · simp [he, raceInfoBase]
  · cases hw : (winners (raceHorses rid soup)).head? <;> simp [he, hw, raceInfoBase]

theorem walkFiles_covers (ex : List String) (cb : Bool) (total : Nat) :
    ∀ (fs : List (String × HtmlFile)) (yc : Nat) (st : WalkSt) (name : String) (soup : Soup),
      (name, HtmlFile.page soup) ∈ fs →
      stem name ∈ ex ∨
        stem name ∈ (walkFiles ex none cb total fs yc st).1.race_list.map (fun r => r.race_id)
  | [], _, _, name, soup, hmem => absurd hmem (List.not_mem_nil _)
  | (n0, f0) :: rest, yc, st, name, soup, hmem => by
    unfold walkFiles
    rw [if_neg (by simp [limTruthy])]
    rcases List.mem_cons.mp hmem with heq | htail
    · injection heq with hn hf
      subst hn
      by_cases hs : ex ≠ [] ∧ stem name ∈ ex
      · rw [if_pos hs]
        exact Or.inl hs.2
      · rw [if_neg hs, ← hf]
        right
        show stem name ∈ (walkFiles ex none cb total rest (yc + 1)
          (goodStep cb total (stem name) soup st)).1.race_list.map (fun r => r.race_id)
        refine List.mem_map.mpr
          ⟨(parse_race_html_full (stem name) soup).1, ?_, parse_race_id _ _⟩
        refine walkFiles_race_mono ex none cb total rest (yc + 1) _ _ ?_
        rw [goodStep_race_list]
        exact List.mem_append_right _ (by simp)
    · by_cases hs : ex ≠ [] ∧ stem n0 ∈ ex
      · rw [if_pos hs]
        exact walkFiles_covers ex cb total rest yc (skipStep st) name soup htail
      · rw [if_neg hs]
        cases f0 with
        | unreadable =>
          show stem name ∈ ex ∨ stem name ∈ (walkFiles ex none cb total rest (yc + 1)
            (failStep st)).1.race_list.map (fun r => r.race_id)
          exact walkFiles_covers ex cb total rest (yc + 1) (failStep st) name soup htail
        | page s0 =>
          show stem name ∈ ex ∨ stem name ∈ (walkFiles ex none cb total rest (yc + 1)
            (goodStep cb total (stem n0) s0 st)).1.race_list.map (fun r => r.race_id)
          exact walkFiles_covers ex cb total rest (yc + 1) _ name soup htail

theorem walkYears_covers (ex : List String) (cb : Bool) (total : Nat) :
    ∀ (dirs : List (String × List (String × HtmlFile))) (st : WalkSt)
      (d : String × List (String × HtmlFile)) (name : String) (soup : Soup),
      d ∈ dirs → (name, HtmlFile.page soup) ∈ d.2 → htmlName name = true →
      stem name ∈ ex ∨
        stem name ∈ (walkYears ex none cb total dirs st).race_list.map (fun r => r.race_id)
  | [], _, d, _, _, hd, _, _ => absurd hd (List.not_mem_nil _)
  | (nm, listing) :: rest, st, d, name, soup, hd, hnf, hhtml => by
    unfold walkYears
    rcases List.mem_cons.mp hd with heq | htail
    · have hmemf : (name, HtmlFile.page soup) ∈ yearFiles listing := by
        refine yearFiles_mem_of listing _ ?_ hhtml
        rw [heq] at hnf
        exact hnf
      rcases walkFiles_covers ex cb total (yearFiles listing) 0 st name soup hmemf with h | h
      · exact Or.inl h
      · right
        obtain ⟨r, hr, hrid⟩ := List.mem_map.mp h
        refine List.mem_map.mpr ⟨r, ?_, hrid⟩
        exact walkYears_race_mono ex none cb total rest _ r
          (by rw [yearStep_race_list]; exact hr)
    · exact walkYears_covers ex cb total rest _ d name soup htail hnf hhtml

theorem parse_multiple_race_list_eq (t : Tree) (years : Option (List Nat)) (cb : Bool)
    (ex : List String) (lim : Option Nat) :
    (parse_multiple_html_full t years cb ex lim).race_list
      = (walkYears ex lim cb (total_files t years lim) (year_dirs t years) initSt).race_list := by
  unfold parse_multiple_html_full
  cases cb <;> simp

/-! ### C4 and C1 -/

/-- C4: when the persisted event table exists and every candidate document's
id is already present in it, both merge functions report `(0, 0)` and return
the store unchanged — storage is not rewritten. -/
theorem claim_C4_noop_merge (st0 : Store) (t : Tree) (years : Option (List Nat))
    (lim : Option Nat) (cb : Bool)
    (hall : ∀ d ∈ year_dirs t years, ∀ nf ∈ d.2, htmlName nf.1 = true →
      stem nf.1 ∈ st0.races.map (fun r => r.race_id)) :
    parse_incremental_parquet (some st0) t years lim cb = ((0, 0), some st0) ∧
    parse_incremental (some st0) t years cb = ((0, 0), some st0) := by
  have hempty : ∀ lim2 : Option Nat,
      (parse_multiple_html_full t years cb (storeIds (some st0)) lim2).race_list = [] := by
    intro lim2
    rw [parse_multiple_race_list_eq]
    have hw := (walkYears_no_new (storeIds (some st0)) lim2 cb
      (total_files t years lim2) (year_dirs t years) initSt ?_).1
    · simpa [initSt] using hw
    · intro d hd nf hnf hh soup hsoup
      have hm := hall d hd nf hnf hh
      exact ⟨List.ne_nil_of_mem hm, hm⟩
  constructor
  · simp only [parse_incremental_parquet]
    rw [hempty lim]
    simp
  · simp only [parse_incremental]
    rw [hempty none]
    simp

def treeA : Tree := Tree.mk [("2020", [("a.html", HtmlFile.page ⟨none⟩)])]

def storeA : Store := ⟨[(parse_race_html_full "a" (Soup.mk none)).1], []⟩

/-- C4 witness: the theorem applied to a one-document tree whose only
document id is already persisted. -/
theorem claim_C4_witness :
    parse_incremental_parquet (some storeA) treeA none none false = ((0, 0), some storeA) :=
  (claim_C4_noop_merge storeA treeA none none false (by decide)).1

/-- C1 (amended): with no per-year cap (`limit_per_year = None`, which is the
only mode `parse_incremental` has), the incremental merge is idempotent:
re-running it over the same tree against the store it just produced reports
`(0, 0)` and leaves the persisted tables exactly as after the first run. -/
theorem claim_C1_amended_idempotent (store : Option Store) (t : Tree)
    (years : Option (List Nat)) (cb : Bool) :
    parse_incremental_parquet (parse_incremental_parquet store t years none cb).2 t years none cb
      = ((0, 0), (parse_incremental_parquet store t years none cb).2) ∧
    parse_incremental (parse_incremental store t years cb).2 t years cb
      = ((0, 0), (parse_incremental store t years cb).2) := by
  have hcsv : ∀ s : Option Store,
      parse_incremental s t years cb = parse_incremental_parquet s t years none cb :=
    fun s => rfl
  have main : parse_incremental_parquet (parse_incremental_parquet store t years none cb).2
      t years none cb = ((0, 0), (parse_incremental_parquet store t years none cb).2) := by
    by_cases h : (parse_multiple_html_full t years cb (storeIds store) none).race_list.length = 0
    · have hrun1 : parse_incremental_parquet store t years none cb = ((0, 0), store) := by
        simp only [parse_incremental_parquet]
        rw [if_pos h]
      rw [hrun1]
      exact hrun1
    · set s1 := (parse_incremental_parquet store t years none cb).2 with hs1def
      have hrun1 : s1
          = some ⟨racesOf store ++ (parse_multiple_html_full t years cb (storeIds store)
                none).race_list,
              resultsOf store ++ (parse_multiple_html_full t years cb (storeIds store)
                none).horse_list⟩ := by
        rw [hs1def]
        simp only [parse_incremental_parquet]
        rw [if_neg h]
      have hw1ne : (parse_multiple_html_full t years cb (storeIds store) none).race_list
          ≠ [] := by
        intro hnil
        exact h (by rw [hnil]; rfl)
      have hids2 : storeIds s1
          = (racesOf store).map (fun r => r.race_id)
            ++ (parse_multiple_html_full t years cb (storeIds store) none).race_list.map
                (fun r => r.race_id) := by
        rw [hrun1]
        simp [storeIds, racesOf]
      have hcov : ∀ d ∈ year_dirs t years, ∀ nf ∈ d.2, htmlName nf.1 = true →
          ∀ soup, nf.2 = HtmlFile.page soup →
            storeIds s1 ≠ [] ∧ stem nf.1 ∈ storeIds s1 := by
        intro d hd nf hnf hh soup hsoup
        constructor
        · rw [hids2]
          intro hnil
          rcases List.append_eq_nil.mp hnil with ⟨-, hmap⟩
          exact hw1ne (List.map_eq_nil_iff.mp hmap)
        · rw [hids2]
          have hcv := walkYears_covers (storeIds store) cb
            (total_files t years none) (year_dirs t years) initSt d nf.1 soup hd
            (by rw [← hsoup]; exact hnf) hh
          rcases hcv with hcv | hcv
          · exact List.mem_append_left _ (by simpa [storeIds] using hcv)
          · refine List.mem_append_right _ ?_
            rw [parse_multiple_race_list_eq]
            exact hcv
      have hempty2 : (parse_multiple_html_full t years cb (storeIds s1) none).race_list
          = [] := by
        rw [parse_multiple_race_list_eq]
        have hw := (walkYears_no_new (storeIds s1) none cb
          (total_files t years none) (year_dirs t years) initSt hcov).1
        simpa [initSt] using hw
      show parse_incremental_parquet s1 t years none cb = ((0, 0), s1)
      simp only [parse_incremental_parquet]
      rw [hempty2]
      simp
  refine ⟨main, ?_⟩
  rw [hcsv, hcsv]
  exact main

def treeAB : Tree :=
  Tree.mk [("2020", [("a.html", HtmlFile.page ⟨none⟩), ("b.html", HtmlFile.page ⟨none⟩)])]

/-- C1 counterexample: with `limit_per_year = 1`, the first merge over a
two-document year ingests only document `a`; running the same merge again
skips `a` without consuming the cap and ingests `b`, so the second run
reports `(1, 0)` instead of `(0, 0)` and the persisted tables change. -/
theorem claim_C1_counterexample :
    (parse_incremental_parquet (parse_incremental_parquet none treeAB none (some 1) false).2
        treeAB none (some 1) false).1 = (1, 0) ∧
    (parse_incremental_parquet (parse_incremental_parquet none treeAB none (some 1) false).2
        treeAB none (some 1) false).2
      ≠ (parse_incremental_parquet none treeAB none (some 1) false).2 := by
  decide

/-! ### Ordering and determinism of the tree walk (C5) -/

/-- Strict name order on keyed entries. -/
def keyLt {β : Type} (a b : String × β) : Prop := a.1 ≠ b.1 ∧ keyLe a b

theorem keyLt_asymm {β : Type} {a b : String × β} (h1 : keyLt a b) (h2 : keyLt b a) : False :=
  h1.1 (String.ext (listLe_antisymm h1.2 h2.2))

theorem keyedSorted_ext {β : Type} :
    ∀ (l1 l2 : List (String × β)), l1.Pairwise keyLt → l2.Pairwise keyLt →
      (∀ x, x ∈ l1 ↔ x ∈ l2) → l1 = l2
  | [], [], _, _, _ => rfl
  | [], b :: t2, _, _, hm =>
    absurd ((hm b).mpr (List.mem_cons_self b t2)) (List.not_mem_nil b)
  | a :: t1, [], _, _, hm =>
    absurd ((hm a).mp (List.mem_cons_self a t1)) (List.not_mem_nil a)
  | a :: t1, b :: t2, hp1, hp2, hm => by
    have hp1a := List.pairwise_cons.mp hp1
    have hp2a := List.pairwise_cons.mp hp2
    have hab : a = b := by
      have hbmem : b ∈ a :: t1 := (hm b).mpr (List.mem_cons_self b t2)
      rcases List.mem_cons.mp hbmem with h | h
      · exact h.symm
      · have hlt1 : keyLt a b := hp1a.1 b h
        have hamem : a ∈ b :: t2 := (hm a).mp (List.mem_cons_self a t1)
        rcases List.mem_cons.mp hamem with h2 | h2
        · exact h2
        · exact absurd (hp2a.1 a h2) (fun hlt2 => keyLt_asymm hlt1 hlt2)
    subst hab
    have htail : ∀ x, x ∈ t1 ↔ x ∈ t2 := by
      intro x
      constructor
      · intro hx
        rcases List.mem_cons.mp ((hm x).mp (List.mem_cons_of_mem a hx)) with h | h
        · subst h
          exact absurd (hp1a.1 x hx) (fun hlt => hlt.1 rfl)
        · exact h
      · intro hx
        rcases List.mem_cons.mp ((hm x).mpr (List.mem_cons_of_mem a hx)) with h | h
        · subst h
          exact absurd (hp2a.1 x hx) (fun hlt => hlt.1 rfl)
        · exact h
    rw [keyedSorted_ext t1 t2 hp1a.2 hp2a.2 htail]

theorem sortByKey_pairwise {β : Type} (l : List (String × β))
    (hnd : (l.map Prod.fst).Nodup) : (sortByKey l).Pairwise keyLt := by
  have hsorted : (sortByKey l).Pairwise keyLe := List.sorted_insertionSort keyLe l
  have hperm : ((sortByKey l).map Prod.fst).Perm (l.map Prod.fst) :=
    (List.perm_insertionSort keyLe l).map Prod.fst
  have hnd2 : ((sortByKey l).map Prod.fst).Nodup := (hperm.nodup_iff).mpr hnd
  have hne : (sortByKey l).Pairwise (fun a b => a.1 ≠ b.1) := List.pairwise_map.mp hnd2
  exact hne.and hsorted

theorem nodupKeys_eq {β : Type} {l : List (String × β)} (hnd : (l.map Prod.fst).Nodup)
    {a b : String × β} (ha : a ∈ l) (hb : b ∈ l) (hk : a.1 = b.1) : a = b := by
  by_contra hne
  have hpn : l.Pairwise (fun x y => x.1 ≠ y.1) := List.pairwise_map.mp hnd
  have hsym : Symmetric (fun x y : String × β => x.1 ≠ y.1) :=
    fun x y h he => h he.symm
  exact (List.Pairwise.forall hsym hpn) ha hb hne hk

theorem yearFiles_perm_eq {l1 l2 : List (String × HtmlFile)} (hp : l1.Perm l2)
    (hnd : (l1.map Prod.fst).Nodup) : yearFiles l1 = yearFiles l2 := by
  have hpf : (l1.filter (fun e => htmlName e.1)).Perm (l2.filter (fun e => htmlName e.1)) :=
    hp.filter _
  have hnd1 : ((l1.filter (fun e => htmlName e.1)).map Prod.fst).Nodup :=
    hnd.sublist ((List.filter_sublist l1).map Prod.fst)
  have hnd2 : ((l2.filter (fun e => htmlName e.1)).map Prod.fst).Nodup :=
    ((hpf.map Prod.fst).nodup_iff).mp hnd1
  show sortByKey (l1.filter (fun e => htmlName e.1))
      = sortByKey (l2.filter (fun e => htmlName e.1))
  have hm1 : (sortByKey (l1.filter (fun e => htmlName e.1))).Perm
      (l1.filter (fun e => htmlName e.1)) := List.perm_insertionSort keyLe _
  have hm2 : (sortByKey (l2.filter (fun e => htmlName e.1))).Perm
      (l2.filter (fun e => htmlName e.1)) := List.perm_insertionSort keyLe _
  refine keyedSorted_ext _ _ (sortByKey_pairwise _ hnd1) (sortByKey_pairwise _ hnd2) ?_
  intro x
  rw [hm1.mem_iff, hm2.mem_iff]
  exact hpf.mem_iff

/-- Well-formedness of a filesystem listing: directory names are unique at
the root, file names are unique within each directory. -/
def goodTree (t : Tree) : Prop :=
  (t.dirs.map Prod.fst).Nodup ∧ ∀ d ∈ t.dirs, (d.2.map Prod.fst).Nodup

/-- Two trees list the same filesystem: same directory names, and per name
the same files (listings equal up to enumeration order). -/
def sameFs (t1 t2 : Tree) : Prop :=
  (∀ d1 ∈ t1.dirs, ∃ d2 ∈ t2.dirs, d1.1 = d2.1 ∧ d1.2.Perm d2.2) ∧
  (∀ d2 ∈ t2.dirs, ∃ d1 ∈ t1.dirs, d2.1 = d1.1 ∧ d2.2.Perm d1.2)

/-- A directory entry reduced to what the walk consumes: its name and its
sorted in-scope file sequence. -/
def normEntry (e : String × List (String × HtmlFile)) : String × List (String × HtmlFile) :=
  (e.1, yearFiles e.2)

theorem norm_sorted_eq {t1 t2 : Tree} (h1 : goodTree t1) (h2 : goodTree t2)
    (hfs : sameFs t1 t2) :
    (sortByKey t1.dirs).map normEntry = (sortByKey t2.dirs).map normEntry := by
  have hp1 : ((sortByKey t1.dirs).map normEntry).Pairwise keyLt := by
    refine List.pairwise_map.mpr ?_
    exact (sortByKey_pairwise _ h1.1).imp (fun h => ⟨h.1, h.2⟩)
  have hp2 : ((sortByKey t2.dirs).map normEntry).Pairwise keyLt := by
    refine List.pairwise_map.mpr ?_
    exact (sortByKey_pairwise _ h2.1).imp (fun h => ⟨h.1, h.2⟩)
  refine keyedSorted_ext _ _ hp1 hp2 ?_
  intro x
  constructor
  · intro hx
    obtain ⟨d1, hd1mem, hd1x⟩ := List.mem_map.mp hx
    have hd1 : d1 ∈ t1.dirs := (List.perm_insertionSort keyLe t1.dirs).mem_iff.mp hd1mem
    obtain ⟨d2, hd2, hname, hperm⟩ := hfs.1 d1 hd1
    refine List.mem_map.mpr ⟨d2, (List.perm_insertionSort keyLe t2.dirs).mem_iff.mpr hd2, ?_⟩
    rw [← hd1x]
    have hy : yearFiles d1.2 = yearFiles d2.2 := yearFiles_perm_eq hperm (h1.2 d1 hd1)
    unfold normEntry
    rw [hname, hy]
  · intro hx
    obtain ⟨d2, hd2mem, hd2x⟩ := List.mem_map.mp hx
    have hd2 : d2 ∈ t2.dirs := (List.perm_insertionSort keyLe t2.dirs).mem_iff.mp hd2mem
    obtain ⟨d1, hd1, hname, hperm⟩ := hfs.2 d2 hd2
    refine List.mem_map.mpr ⟨d1, (List.perm_insertionSort keyLe t1.dirs).mem_iff.mpr hd1, ?_⟩
    rw [← hd2x]
    have hy : yearFiles d2.2 = yearFiles d1.2 := yearFiles_perm_eq hperm (h2.2 d2 hd2)
    unfold normEntry
    rw [hname, hy]

theorem find_norm_eq {t1 t2 : Tree} (h1 : goodTree t1) (h2 : goodTree t2)
    (hfs : sameFs t1 t2) (n : String) :
    (t1.dirs.find? (fun d => d.1 == n)).map normEntry
      = (t2.dirs.find? (fun d => d.1 == n)).map normEntry := by
  cases hf1 : t1.dirs.find? (fun d => d.1 == n) with
  | none =>
    cases hf2 : t2.dirs.find? (fun d => d.1 == n) with
    | none => rfl
    | some d2 =>
      exfalso
      have hd2 : d2 ∈ t2.dirs := List.mem_of_find?_eq_some hf2
      have hp2 : d2.1 = n := by simpa using List.find?_some hf2
      obtain ⟨d1, hd1, hname, -⟩ := hfs.2 d2 hd2
      have hnone := List.find?_eq_none.mp hf1 d1 hd1
      have hd1n : d1.1 = n := by rw [← hname]; exact hp2
      exact hnone (by simp [hd1n])
  | some d1 =>
    have hd1 : d1 ∈ t1.dirs := List.mem_of_find?_eq_some hf1
    have hp1 : d1.1 = n := by simpa using List.find?_some hf1
    obtain ⟨d2x, hd2x, hname, hperm⟩ := hfs.1 d1 hd1
    cases hf2 : t2.dirs.find? (fun d => d.1 == n) with
    | none =>
      exfalso
      have hnone := List.find?_eq_none.mp hf2 d2x hd2x
      have hd2n : d2x.1 = n := by rw [← hname]; exact hp1
      exact hnone (by simp [hd2n])
    | some d2 =>
      have hd2 : d2 ∈ t2.dirs := List.mem_of_find?_eq_some hf2
      have hp2 : d2.1 = n := by simpa using List.find?_some hf2
      have heq2 : d2 = d2x := by
        refine nodupKeys_eq h2.1 hd2 hd2x ?_
        rw [hp2, ← hname]
        exact hp1.symm
      have hy : yearFiles d1.2 = yearFiles d2.2 := by
        rw [heq2]
        exact yearFiles_perm_eq hperm (h1.2 d1 hd1)
      have hnn : d1.1 = d2.1 := by rw [hp1, hp2]
      simp only [Option.map_some']
      unfold normEntry
      rw [hnn, hy]

theorem forall₂_of_map_eq {α β : Type} {f : α → β} :
    ∀ {l1 l2 : List α}, l1.map f = l2.map f → List.Forall₂ (fun a b => f a = f b) l1 l2
  | [], [], _ => List.Forall₂.nil
  | [], _ :: _, h => by simp at h
  | _ :: _, [], h => by simp at h
  | a :: t1, b :: t2, h => by
    rw [List.map_cons, List.map_cons] at h
    injection h with h1 h2
    exact List.Forall₂.cons h1 (forall₂_of_map_eq h2)

theorem map_eq_of_forall₂ {α β : Type} {g : α → β} :
    ∀ {l1 l2 : List α}, List.Forall₂ (fun a b => g a = g b) l1 l2 → l1.map g = l2.map g
  | _, _, List.Forall₂.nil => rfl
  | _, _, List.Forall₂.cons h ht => by
    rw [List.map_cons, List.map_cons, h, map_eq_of_forall₂ ht]

theorem year_dirs_rel {t1 t2 : Tree} (h1 : goodTree t1) (h2 : goodTree t2)
    (hfs : sameFs t1 t2) (years : Option (List Nat)) :
    List.Forall₂ (fun d1 d2 => normEntry d1 = normEntry d2)
      (year_dirs t1 years) (year_dirs t2 years) := by
  cases years with
  | none => exact forall₂_of_map_eq (norm_sorted_eq h1 h2 hfs)
  | some ys =>
    induction ys with
    | nil => exact List.Forall₂.nil
    | cons y ys ih =>
      have hfind := find_norm_eq h1 h2 hfs (toString y)
      unfold year_dirs
      cases hf1 : t1.dirs.find? (fun d => d.1 == toString y) with
      | none =>
        cases hf2 : t2.dirs.find? (fun d => d.1 == toString y) with
        | none =>
          simp only [List.filterMap_cons, hf1, hf2]
          exact ih
        | some d2 => rw [hf1, hf2] at hfind; simp at hfind
      | some d1 =>
        cases hf2 : t2.dirs.find? (fun d => d.1 == toString y) with
        | none => rw [hf1, hf2] at hfind; simp at hfind
        | some d2 =>
          rw [hf1, hf2] at hfind
          simp only [Option.map_some', Option.some.injEq] at hfind
          simp only [List.filterMap_cons, hf1, hf2]
          exact List.Forall₂.cons hfind ih

theorem yearStep_congr (ex : List String) (lim : Option Nat) (cb : Bool) (total : Nat)
    {l1 l2 : List (String × HtmlFile)} (h : yearFiles l1 = yearFiles l2) (st : WalkSt) :
    yearStep ex lim cb total l1 st = yearStep ex lim cb total l2 st := by
  unfold yearStep
  rw [h]

theorem walkYears_congr (ex : List String) (lim : Option Nat) (cb : Bool) (total : Nat) :
    ∀ {ds1 ds2 : List (String × List (String × HtmlFile))},
      List.Forall₂ (fun d1 d2 => yearFiles d1.2 = yearFiles d2.2) ds1 ds2 →
      ∀ st, walkYears ex lim cb total ds1 st = walkYears ex lim cb total ds2 st := by
  intro ds1 ds2 hf
  induction hf with
  | nil => intro st; rfl
  | @cons a1 a2 t1x t2x h ht ih =>
    intro st
    obtain ⟨n1, l1⟩ := a1
    obtain ⟨n2, l2⟩ := a2
    show walkYears ex lim cb total t1x (yearStep ex lim cb total l1 st)
        = walkYears ex lim cb total t2x (yearStep ex lim cb total l2 st)
    rw [yearStep_congr ex lim cb total h st]
    exact ih _

theorem yearFiles_length (l : List (String × HtmlFile)) :
    (yearFiles l).length = (l.filter (fun e => htmlName e.1)).length :=
  (List.perm_insertionSort keyLe _).length_eq

theorem total_files_congr {t1 t2 : Tree} (h1 : goodTree t1) (h2 : goodTree t2)
    (hfs : sameFs t1 t2) (years : Option (List Nat)) (lim : Option Nat) :
    total_files t1 years lim = total_files t2 years lim := by
  have hrel := year_dirs_rel h1 h2 hfs years
  have hlen : (year_dirs t1 years).length = (year_dirs t2 years).length := hrel.length_eq
  have hmap : (year_dirs t1 years).map (fun d => (d.2.filter (fun e => htmlName e.1)).length)
      = (year_dirs t2 years).map (fun d => (d.2.filter (fun e => htmlName e.1)).length) := by
    refine map_eq_of_forall₂ (hrel.imp ?_)
    intro d1 d2 hnd
    have hy : yearFiles d1.2 = yearFiles d2.2 := congrArg Prod.snd hnd
    rw [← yearFiles_length, ← yearFiles_length, hy]
  simp only [total_files]
  rw [hlen, hmap]

/-- C5 (amended): the walk is deterministic in the filesystem rather than in
its enumeration order — two listings of the same tree (same directory names,
same files per directory, in any order) produce identical output, including
identical event and participant row order; when `years` is None the year
directories are processed in ascending (lexicographic) name order; and the
in-scope documents of every visited directory are processed in lexicographic
filename order.  When a `years` list is supplied, directories are visited in
the order given by that argument, not sorted (see the counterexample). -/
theorem claim_C5_amended_ordering (t1 t2 : Tree) (years : Option (List Nat)) (cb : Bool)
    (ex : List String) (lim : Option Nat)
    (h1 : goodTree t1) (h2 : goodTree t2) (hfs : sameFs t1 t2) :
    parse_multiple_html_full t1 years cb ex lim = parse_multiple_html_full t2 years cb ex lim ∧
    ((year_dirs t1 none).map Prod.fst).Pairwise (fun a b => nameLe a b = true) ∧
    (∀ d ∈ year_dirs t1 years, ((yearFiles d.2).map Prod.fst).Pairwise
      (fun a b => nameLe a b = true)) := by
  refine ⟨?_, ?_, ?_⟩
  · have hrel := year_dirs_rel h1 h2 hfs years
    have hy : List.Forall₂ (fun d1 d2 => yearFiles d1.2 = yearFiles d2.2)
        (year_dirs t1 years) (year_dirs t2 years) :=
      hrel.imp (fun _ _ hnd => congrArg Prod.snd hnd)
    have htot := total_files_congr h1 h2 hfs years lim
    have hwalk := walkYears_congr ex lim cb (total_files t2 years lim) hy initSt
    simp only [parse_multiple_html_full]
    rw [htot, hwalk]
  · have hs : (sortByKey t1.dirs).Pairwise keyLe := List.sorted_insertionSort keyLe t1.dirs
    exact List.pairwise_map.mpr hs
  · intro d hd
    have hs : (yearFiles d.2).Pairwise keyLe :=
      List.sorted_insertionSort keyLe (d.2.filter (fun e => htmlName e.1))
    exact List.pairwise_map.mpr hs

def treeY : Tree :=
  Tree.mk [("2020", [("a.html", HtmlFile.page ⟨none⟩)]),
           ("2021", [("b.html", HtmlFile.page ⟨none⟩)])]

def treeYrev : Tree :=
  Tree.mk [("2021", [("b.html", HtmlFile.page ⟨none⟩)]),
           ("2020", [("a.html", HtmlFile.page ⟨none⟩)])]

instance (t : Tree) : Decidable (goodTree t) := by
  unfold goodTree
  infer_instance

instance (t1 t2 : Tree) : Decidable (sameFs t1 t2) := by
  unfold sameFs
  infer_instance

/-- C5 witness: two listings of the same two-year tree in opposite
enumeration orders produce identical batch output. -/
theorem claim_C5_witness :
    parse_multiple_html_full treeY none false [] none
      = parse_multiple_html_full treeYrev none false [] none :=
  (claim_C5_amended_ordering treeY treeYrev none false [] none (by decide) (by decide)
    (by decide)).1

/-- C5 counterexample: with `years = [2021, 2020]` the year directories are
visited in the argument's order — 2021 before 2020, which is not ascending —
and the output event rows follow that non-ascending order. -/
theorem claim_C5_counterexample :
    (year_dirs treeY (some [2021, 2020])).map Prod.fst = ["2021", "2020"] ∧
    nameLe "2021" "2020" = false ∧
    (parse_multiple_html_full treeY (some [2021, 2020]) false [] none).race_list.map
      (fun r => r.race_id) = ["b", "a"] := by
  decide


end Keiba
